import Mathlib

/-!
Verification of the matching-tool matcher core (Rust sources under `src/`).

Modelling conventions, used throughout:

* Rust `String` / `&str` values are modelled as `List Char` (`Str`).  Rust string
  functions that work on UTF-8 bytes (`len`, `cmp`, `contains`) are modelled on
  the character level; this is faithful because UTF-8 encoding is injective and
  self-synchronizing: byte length is the sum of the characters' UTF-8 sizes,
  byte-wise lexicographic order of UTF-8 strings equals code-point order, and a
  byte substring of a valid UTF-8 string corresponds exactly to a character
  substring.
* `f32`/`f64` values are modelled as exact rationals (`ℚ`).  Rounding is not
  modelled; the verified properties are structural (which entries occur, when a
  value is exactly zero, how branches are selected) and these are preserved by
  the exact model for the magnitudes that occur.  The one place where IEEE
  non-finite values matter is division: `fdiv` returns `none` for a zero
  divisor, modelling the IEEE result (NaN for 0/0, ±∞ otherwise), which is
  never equal to the finite value 0.
* Rust `HashMap`s are modelled as association lists; every verified fact is
  independent of iteration order.
* `i32` wrap-around (release-build semantics) is modelled explicitly by
  `i32Wrap` where the source can overflow.
-/

/-- Rust strings, modelled as their character sequence. -/
abbrev Str := List Char

/-- Rust `str::len`: the length of the UTF-8 encoding in bytes. -/
def byteLen (s : Str) : Nat := (s.map Char.utf8Size).sum

/-- Sparse vector entries `(VectorIndex, f32)` as used throughout `matcher.rs`. -/
abbrev SparseVec := List (Nat × ℚ)

/-- IEEE division on finite values: `none` models a non-finite `f32` result
(NaN when the numerator is also 0, ±∞ otherwise), which arises exactly when
the divisor is 0.  A non-finite result is distinct from every finite value. -/
def fdiv (a b : ℚ) : Option ℚ := if b = 0 then none else some (a / b)

/-- Embedding of `dot_product` (src/src/matcher.rs): two-pointer merge over
ascending-index sparse vectors, accumulating the product of matching indices. -/
def dot_product : SparseVec → SparseVec → ℚ
  | [], _ => 0
  | _ :: _, [] => 0
  | (index1, value1) :: r1, (index2, value2) :: r2 =>
    if index1 = index2 then value1 * value2 + dot_product r1 r2
    else if index1 < index2 then dot_product r1 ((index2, value2) :: r2)
    else dot_product ((index1, value1) :: r1) r2
termination_by v1 v2 => v1.length + v2.length

/-- Embedding of `cosine_similarity` (src/src/matcher.rs): `dot / (n1 * n2)`
with no guard on a zero denominator; a zero denominator yields a non-finite
`f32` (`none` in the model). -/
def cosine_similarity (vector1 : SparseVec) (vector1_selfdot : ℚ)
    (vector2 : SparseVec) (vector2_selfdot : ℚ) : Option ℚ :=
  fdiv (dot_product vector1 vector2) (vector1_selfdot * vector2_selfdot)

/-- Embedding of `DatasetWeightedVector` (src/src/matcher.rs). -/
structure DatasetWeightedVector where
  id : Str
  vector : SparseVec
  dot : ℚ

/-- Embedding of `JsonRecord` (src/src/matcher.rs). -/
structure JsonRecord where
  edition : Nat
  title : Str
  author : Str
  location : Str
  year : Str
  publication_type : Str
  allowed_years : List Nat

/-- Embedding of `SourceRecord` (src/src/source_data.rs). -/
structure SourceRecord where
  id : Str
  title : Str
  author : Str
  location : Str
  year : Str

/-- Embedding of the fields of `ConfigOptions` (src/src/args.rs) consumed by the
verified matcher functions; the remaining fields are irrelevant to them. -/
structure ConfigOptions where
  force_year : Bool
  year_tolerance : Option Int
  year_tolerance_penalty : ℚ
  json_schema_version : Int
  overlap_adjustment : Option Int

/-- Embedding of `DEFAULT_YEAR_TOLERANCE_PENALTY` (src/src/args.rs line 73). -/
def DEFAULT_YEAR_TOLERANCE_PENALTY : ℚ := 1 / 4

/-- Rust ASCII digit test, as used by integer `FromStr`. -/
def isAsciiDigit (c : Char) : Bool := '0' ≤ c && c ≤ '9'

/-- Digit run of Rust integer parsing: the whole (sign-stripped) input must be a
nonempty run of ASCII digits. -/
def parseDigits (s : Str) : Option Nat :=
  if s = [] then none
  else if s.all isAsciiDigit then some (s.foldl (fun a c => 10 * a + (c.toNat - 48)) 0)
  else none

/-- Embedding of `str::parse::<u32>`: optional leading `+`, ASCII digits,
error on overflow. -/
def rustParseU32 (s : Str) : Option Nat :=
  let t := match s with
    | '+' :: r => r
    | _ => s
  (parseDigits t).bind fun n => if n < 2 ^ 32 then some n else none

/-- Embedding of `str::parse::<i32>`: optional sign, ASCII digits, error on
overflow. -/
def rustParseI32 (s : Str) : Option Int :=
  match s with
  | '-' :: r => (parseDigits r).bind fun n => if n ≤ 2 ^ 31 then some (-(n : Int)) else none
  | '+' :: r => (parseDigits r).bind fun n => if n < 2 ^ 31 then some ((n : Int)) else none
  | _ => (parseDigits s).bind fun n => if n < 2 ^ 31 then some ((n : Int)) else none

/-- Two's-complement wrap-around into the `i32` range, the release-build
semantics of overflowing `i32` arithmetic. -/
def i32Wrap (n : Int) : Int := (n + 2 ^ 31) % 2 ^ 32 - 2 ^ 31

/-- Release-build `i32::abs`: ordinary absolute value except that
`i32::MIN.abs()` wraps back to `i32::MIN`. -/
def i32Abs (n : Int) : Int := i32Wrap |n|

/-- Embedding of `calculate_base_similarity` (src/src/matcher.rs). -/
def calculate_base_similarity (input_combined_vector : SparseVec) (self_dot : ℚ)
    (document : DatasetWeightedVector) : Option ℚ :=
  cosine_similarity input_combined_vector self_dot document.vector document.dot

/-- Embedding of `calculate_similarity_forced_year` (src/src/matcher.rs lines
406-428): the year gate used when `force_year` is set and `year_tolerance` is
unset. -/
def calculate_similarity_forced_year (opts : ConfigOptions) (record : JsonRecord)
    (source_record : SourceRecord) (input_combined_vector : SparseVec) (self_dot : ℚ)
    (document : DatasetWeightedVector) : Option ℚ :=
  if record.year = ("0").data then
    calculate_base_similarity input_combined_vector self_dot document
  else if opts.json_schema_version ≥ 2 then
    match rustParseU32 source_record.year with
    | some source_year =>
      if record.allowed_years.contains source_year then
        calculate_base_similarity input_combined_vector self_dot document
      else some 0
    | none => some 0
  else if record.year ≠ source_record.year then some 0
  else calculate_base_similarity input_combined_vector self_dot document

/-- Embedding of `calculate_similarity_within_year_tolerance`
(src/src/matcher.rs lines 434-461): the numeric year gate used when
`force_year` is set and `year_tolerance` is set. -/
def calculate_similarity_within_year_tolerance (opts : ConfigOptions) (record : JsonRecord)
    (source_record : SourceRecord) (input_combined_vector : SparseVec) (self_dot : ℚ)
    (document : DatasetWeightedVector) : Option ℚ :=
  if record.year = ("0").data then
    calculate_base_similarity input_combined_vector self_dot document
  else
    match opts.year_tolerance with
    | some tolerance =>
      match rustParseI32 record.year with
      | some record_year =>
        match rustParseI32 source_record.year with
        | some source_year =>
          let year_diff := i32Abs (i32Wrap (record_year - source_year))
          if year_diff ≤ tolerance then
            (calculate_base_similarity input_combined_vector self_dot document).map
              (fun base => base * max (1 - (year_diff : ℚ) * opts.year_tolerance_penalty) 0)
          else some 0
        | none => some 0
      | none => some 0
    | none => calculate_base_similarity input_combined_vector self_dot document

/-- Embedding of `calculate_similarity_score` (src/src/matcher.rs lines
380-399): dispatch between the ungated cosine and the two year gates,
falling back to the ungated cosine when the reference record is absent from
the `SourceData` map. -/
def calculate_similarity_score (opts : ConfigOptions) (record : JsonRecord)
    (source_record_opt : Option SourceRecord) (input_combined_vector : SparseVec)
    (self_dot : ℚ) (document : DatasetWeightedVector) : Option ℚ :=
  if !opts.force_year then
    calculate_base_similarity input_combined_vector self_dot document
  else if opts.force_year && opts.year_tolerance.isNone then
    match source_record_opt with
    | some source_record =>
      calculate_similarity_forced_year opts record source_record input_combined_vector
        self_dot document
    | none => calculate_base_similarity input_combined_vector self_dot document
  else if opts.force_year && opts.year_tolerance.isSome then
    match source_record_opt with
    | some source_record =>
      calculate_similarity_within_year_tolerance opts record source_record
        input_combined_vector self_dot document
    | none => calculate_base_similarity input_combined_vector self_dot document
  else calculate_base_similarity input_combined_vector self_dot document

/-- Embedding of `Document` (src/src/vectorize.rs): per-field sparse vectors.
The Rust `HashMap` is modelled as an association list; every verified fact
about it is independent of iteration order. -/
structure Document where
  id : Str
  vectors : List (Str × SparseVec)

/-- `BTreeMap` insertion used by `weighted_averaged_vector`: replace the value
at a key, keeping keys sorted. -/
def btreeSet (m : List (Nat × ℚ)) (i : Nat) (v : ℚ) : List (Nat × ℚ) :=
  match m with
  | [] => [(i, v)]
  | (j, w) :: r =>
    if i < j then (i, v) :: (j, w) :: r
    else if i = j then (i, v) :: r
    else (j, w) :: btreeSet r i v

/-- `BTreeMap` entry-or-insert-then-add used by `weighted_averaged_vector`:
add `v` to the value at key `i`, inserting `v` when the key is absent. -/
def btreeAdd (m : List (Nat × ℚ)) (i : Nat) (v : ℚ) : List (Nat × ℚ) :=
  match m with
  | [] => [(i, v)]
  | (j, w) :: r =>
    if i < j then (i, v) :: (j, w) :: r
    else if i = j then (j, w + v) :: r
    else (j, w) :: btreeAdd r i v

/-- One step of the part loop of `weighted_averaged_vector`: skip empty
vectors, look up the part weight (`unwrap`, i.e. `none` models the panic),
then initialize or accumulate the intermediate `BTreeMap`. -/
def wavStep (weights : List (Str × ℚ)) (st : Option (Nat × List (Nat × ℚ)))
    (part : Str × SparseVec) : Option (Nat × List (Nat × ℚ)) :=
  st.bind fun s =>
    if part.2 = [] then some s
    else
      match weights.lookup part.1 with
      | none => none
      | some weight =>
        let active_parts := s.1 + 1
        if active_parts = 1 then
          some (active_parts, part.2.foldl (fun m e => btreeSet m e.1 (e.2 * weight)) [])
        else
          some (active_parts, part.2.foldl (fun m e => btreeAdd m e.1 (e.2 * weight)) s.2)

/-- Embedding of `weighted_averaged_vector` (src/src/matcher.rs lines 658-687).
`none` models the panic of the `weights.get(part).unwrap()` call; parts with
empty vectors are skipped before that lookup.  The final map divides every
accumulated value by the number of active parts. -/
def weighted_averaged_vector (document : Document) (weights : List (Str × ℚ)) :
    Option SparseVec :=
  (document.vectors.foldl (wavStep weights) (some (0, []))).map fun s =>
    s.2.map fun e => (e.1, e.2 / (s.1 : ℚ))

/-- Embedding of `default_weights` (src/src/matcher.rs lines 700-709). -/
def default_weights : List (Str × ℚ) :=
  [(("author").data, 3 / 4), (("title").data, 3 / 2), (("location").data, 1),
   (("year").data, 1), (("all").data, 0)]

/-- A `wavStep` from a live state fails exactly when the part has a nonempty
vector and its weight is missing. -/
theorem wavStep_some_eq_none_iff (weights : List (Str × ℚ)) (st : Nat × List (Nat × ℚ))
    (part : Str × SparseVec) :
    wavStep weights (some st) part = none ↔
      part.2 ≠ [] ∧ weights.lookup part.1 = none := by
  simp only [wavStep, Option.bind_some]
  by_cases hp : part.2 = []
  · simp [hp]
  · cases hl : weights.lookup part.1 with
    | none => simp [hp, hl]
    | some w =>
      by_cases h1 : st.1 = 0 <;> simp [hp, hl, h1]

/-- Once the part fold has failed it stays failed. -/
theorem wavFold_none (weights : List (Str × ℚ)) :
    ∀ parts : List (Str × SparseVec), parts.foldl (wavStep weights) none = none := by
  intro parts
  induction parts with
  | nil => rfl
  | cons p ps ih =>
    simpa [wavStep] using ih

/-- The part fold of `weighted_averaged_vector` fails iff some part has a
nonempty vector whose weight is missing. -/
theorem wavFold_none_iff (weights : List (Str × ℚ)) :
    ∀ (parts : List (Str × SparseVec)) (st : Nat × List (Nat × ℚ)),
      parts.foldl (wavStep weights) (some st) = none ↔
        ∃ pv ∈ parts, pv.2 ≠ [] ∧ weights.lookup pv.1 = none := by
  intro parts
  induction parts with
  | nil => intro st; simp
  | cons p ps ih =>
    intro st
    simp only [List.foldl_cons]
    cases hstep : wavStep weights (some st) p with
    | none =>
      have hp := (wavStep_some_eq_none_iff weights st p).mp hstep
      rw [wavFold_none]
      simp only [true_iff]
      exact ⟨p, List.mem_cons_self p ps, hp.1, hp.2⟩
    | some st' =>
      rw [ih st']
      have hps : ¬(p.2 ≠ [] ∧ weights.lookup p.1 = none) := by
        rw [← wavStep_some_eq_none_iff weights st p, hstep]
        simp
      constructor
      · rintro ⟨pv, hm, h1, h2⟩
        exact ⟨pv, List.mem_cons_of_mem _ hm, h1, h2⟩
      · rintro ⟨pv, hm, h1, h2⟩
        rcases List.mem_cons.mp hm with rfl | hm
        · exact absurd ⟨h1, h2⟩ hps
        · exact ⟨pv, hm, h1, h2⟩

/-- C9: `weighted_averaged_vector` hits the fatal `unwrap` of a missing weight
(modelled as `none`) iff some field of the document has a nonempty sparse
vector whose name is absent from the weights map; fields with empty vectors
are skipped before the weight lookup, so a missing weight for an empty field
is never an error. -/
theorem weighted_averaged_vector_panics_iff (document : Document)
    (weights : List (Str × ℚ)) :
    weighted_averaged_vector document weights = none ↔
      ∃ pv ∈ document.vectors, pv.2 ≠ [] ∧ weights.lookup pv.1 = none := by
  unfold weighted_averaged_vector
  rw [Option.map_eq_none']
  exact wavFold_none_iff weights document.vectors (0, [])

/-- Witness for C9 at a concrete document: the `author` field is nonempty and
has no weight, so the computation fails; with the full default weights map it
succeeds. -/
theorem weighted_averaged_vector_panics_iff_witness :
    weighted_averaged_vector ⟨("d").data, [(("author").data, [(1, 1)])]⟩
        [(("title").data, 1)] = none ∧
      weighted_averaged_vector ⟨("d").data, [(("author").data, [])]⟩
        [(("title").data, 1)] ≠ none := by
  constructor
  · exact (weighted_averaged_vector_panics_iff _ _).mpr
      ⟨(("author").data, [(1, 1)]), by simp, by simp, by decide⟩
  · intro h
    have := (weighted_averaged_vector_panics_iff _ _).mp h
    simp at this

/-- C1 (supporting theorem for the code bug): for a document all of whose field
vectors are empty, `weighted_averaged_vector` returns the empty sparse vector
(first conjunct, as the claim states); but `cosine_similarity` guards no
division, so whenever both self-norms are 0 the result is the non-finite
0/0 (modelled `none`) — never the finite 0 that the specification requires
(second and third conjuncts). -/
theorem cosine_similarity_zero_norms_not_zero :
    weighted_averaged_vector
        ⟨("d").data,
          [(("author").data, []), (("title").data, []), (("location").data, []),
           (("year").data, []), (("all").data, [])]⟩ default_weights = some [] ∧
      (∀ v1 v2 : SparseVec, cosine_similarity v1 0 v2 0 = none) ∧
      cosine_similarity [] 0 [] 0 ≠ some 0 := by
  refine ⟨by rfl, fun v1 v2 => ?_, ?_⟩
  · simp [cosine_similarity, fdiv]
  · simp [cosine_similarity, fdiv]

/-- C10: with `force_year` set but the scanned document's id absent from the
`SourceData` record map (`source_record_opt = none`), `calculate_similarity_score`
silently skips the year gate and returns the ungated base cosine, on both the
tolerance-unset and tolerance-set paths. -/
theorem missing_source_record_bypasses_year_gate (opts : ConfigOptions)
    (record : JsonRecord) (input : SparseVec) (self_dot : ℚ)
    (document : DatasetWeightedVector) (hforce : opts.force_year = true) :
    calculate_similarity_score opts record none input self_dot document =
      calculate_base_similarity input self_dot document := by
  unfold calculate_similarity_score
  cases htol : opts.year_tolerance <;> simp [hforce, htol]

/-- Witness for C10 at a concrete gated configuration (tolerance set) whose
base cosine is 1. -/
theorem missing_source_record_bypasses_year_gate_witness :
    (⟨true, some 3, DEFAULT_YEAR_TOLERANCE_PENALTY, 2, none⟩ : ConfigOptions).force_year
        = true ∧
      calculate_similarity_score ⟨true, some 3, DEFAULT_YEAR_TOLERANCE_PENALTY, 2, none⟩
        ⟨1, [], [], [], ("1988").data, [], []⟩ none [(0, 1)] 1 ⟨[], [(0, 1)], 1⟩ =
        calculate_base_similarity [(0, 1)] 1 ⟨[], [(0, 1)], 1⟩ :=
  ⟨rfl,
    missing_source_record_bypasses_year_gate _ _ _ _ _ rfl⟩

/-- Wrap-around is the identity on the `i32` range. -/
theorem i32Wrap_eq_self {n : Int} (h1 : -(2 ^ 31) ≤ n) (h2 : n < 2 ^ 31) :
    i32Wrap n = n := by
  unfold i32Wrap
  omega

/-- For a difference within the `i32` range, the wrapped absolute difference is
the mathematical absolute difference. -/
theorem i32Abs_i32Wrap_sub {a b : Int} (h : (a - b).natAbs < 2 ^ 31) :
    i32Abs (i32Wrap (a - b)) = ((a - b).natAbs : Int) := by
  have habs : (2:Int) ^ 31 = 2147483648 := by norm_num
  unfold i32Abs i32Wrap
  rw [Int.abs_eq_natAbs]
  omega

/-- With `force_year` set and `year_tolerance` set, the score dispatches to the
numeric year-tolerance gate. -/
theorem score_dispatch_tolerance (opts : ConfigOptions) (record : JsonRecord)
    (sr : SourceRecord) (input : SparseVec) (self_dot : ℚ)
    (document : DatasetWeightedVector) (tol : Int) (hforce : opts.force_year = true)
    (htol : opts.year_tolerance = some tol) :
    calculate_similarity_score opts record (some sr) input self_dot document =
      calculate_similarity_within_year_tolerance opts record sr input self_dot document := by
  unfold calculate_similarity_score
  simp [hforce, htol]

/-- With `force_year` set and `year_tolerance` unset, the score dispatches to
the forced-year gate. -/
theorem score_dispatch_forced (opts : ConfigOptions) (record : JsonRecord)
    (sr : SourceRecord) (input : SparseVec) (self_dot : ℚ)
    (document : DatasetWeightedVector) (hforce : opts.force_year = true)
    (htol : opts.year_tolerance = none) :
    calculate_similarity_score opts record (some sr) input self_dot document =
      calculate_similarity_forced_year opts record sr input self_dot document := by
  unfold calculate_similarity_score
  simp [hforce, htol]

/-- Shared evaluation of the tolerance gate when both years parse and the
difference is within the `i32` range. -/
theorem within_tolerance_parsed_eval (opts : ConfigOptions) (record : JsonRecord)
    (sr : SourceRecord) (input : SparseVec) (self_dot : ℚ)
    (document : DatasetWeightedVector) (tol : Int) (hforce : opts.force_year = true)
    (htol : opts.year_tolerance = some tol) (hyear : record.year ≠ ("0").data)
    (ry sy : Int) (hry : rustParseI32 record.year = some ry)
    (hsy : rustParseI32 sr.year = some sy) (hrange : (ry - sy).natAbs < 2 ^ 31) :
    calculate_similarity_score opts record (some sr) input self_dot document =
      if (((ry - sy).natAbs : Int)) ≤ tol then
        (calculate_base_similarity input self_dot document).map
          (fun base =>
            base * max (1 - (((ry - sy).natAbs : Int) : ℚ) * opts.year_tolerance_penalty) 0)
      else some 0 := by
  rw [score_dispatch_tolerance opts record sr input self_dot document tol hforce htol]
  unfold calculate_similarity_within_year_tolerance
  rw [if_neg hyear, htol]
  simp only [hry, hsy, i32Abs_i32Wrap_sub hrange]

/-- C7: with `force_year`, `year_tolerance = tol > 0` and an input year other
than "0": the default penalty slope is 0.25; when both years parse as `i32`
and their difference Δ is in the `i32` range, the score is the base cosine
times `max (1 - |Δ| * penalty) 0` when `|Δ| ≤ tol` and 0 when `|Δ| > tol`;
when either year fails to parse the score is 0. -/
theorem year_tolerance_gate (opts : ConfigOptions) (record : JsonRecord)
    (sr : SourceRecord) (input : SparseVec) (self_dot : ℚ)
    (document : DatasetWeightedVector) (tol : Int) (hforce : opts.force_year = true)
    (htol : opts.year_tolerance = some tol) (_htolpos : 0 < tol)
    (hyear : record.year ≠ ("0").data) :
    DEFAULT_YEAR_TOLERANCE_PENALTY = 1 / 4 ∧
      (∀ ry sy : Int, rustParseI32 record.year = some ry →
        rustParseI32 sr.year = some sy → (ry - sy).natAbs < 2 ^ 31 →
        calculate_similarity_score opts record (some sr) input self_dot document =
          if (((ry - sy).natAbs : Int)) ≤ tol then
            (calculate_base_similarity input self_dot document).map
              (fun base =>
                base * max (1 - (((ry - sy).natAbs : Int) : ℚ) * opts.year_tolerance_penalty) 0)
          else some 0) ∧
      (rustParseI32 record.year = none →
        calculate_similarity_score opts record (some sr) input self_dot document = some 0) ∧
      (∀ ry : Int, rustParseI32 record.year = some ry → rustParseI32 sr.year = none →
        calculate_similarity_score opts record (some sr) input self_dot document = some 0) := by
  refine ⟨rfl, fun ry sy hry hsy hrange => ?_, fun hnone => ?_, fun ry hry hsnone => ?_⟩
  · exact within_tolerance_parsed_eval opts record sr input self_dot document tol hforce htol
      hyear ry sy hry hsy hrange
  · rw [score_dispatch_tolerance opts record sr input self_dot document tol hforce htol]
    unfold calculate_similarity_within_year_tolerance
    rw [if_neg hyear, htol]
    simp only [hnone]
  · rw [score_dispatch_tolerance opts record sr input self_dot document tol hforce htol]
    unfold calculate_similarity_within_year_tolerance
    rw [if_neg hyear, htol]
    simp only [hry, hsnone]

/-- Witness for C7: years 1988 vs 1990 with tolerance 3 and the default 0.25
penalty; the gate multiplies the base cosine by `max (1 - 2 * 0.25) 0`. -/
theorem year_tolerance_gate_witness :
    calculate_similarity_score ⟨true, some 3, DEFAULT_YEAR_TOLERANCE_PENALTY, 1, none⟩
        ⟨1, [], [], [], ("1988").data, [], []⟩ (some ⟨[], [], [], [], ("1990").data⟩)
        [(0, 1)] 1 ⟨[], [(0, 1)], 1⟩ =
      if ((((1988 : Int) - 1990).natAbs : Int)) ≤ 3 then
        (calculate_base_similarity [(0, 1)] 1 ⟨[], [(0, 1)], 1⟩).map
          (fun base =>
            base * max (1 - ((((1988 : Int) - 1990).natAbs : Int) : ℚ) *
              DEFAULT_YEAR_TOLERANCE_PENALTY) 0)
      else some 0 :=
  ((year_tolerance_gate ⟨true, some 3, DEFAULT_YEAR_TOLERANCE_PENALTY, 1, none⟩
      ⟨1, [], [], [], ("1988").data, [], []⟩ ⟨[], [], [], [], ("1990").data⟩
      [(0, 1)] 1 ⟨[], [(0, 1)], 1⟩ 3 rfl rfl (by decide) (by decide)).2.1)
    1988 1990 (by decide) (by decide) (by decide)

/-- C3 (amended): with `force_year` set and an input year other than "0":
when `year_tolerance` is unset the v2 gate requires the parsed reference year
to be a member of `allowed_years` and the v1 gate requires exact string
equality of the years, as the claim states; but when `year_tolerance` is
explicitly set to 0 both schema versions instead take the numeric tolerance
path, which requires the two years to parse as equal `i32` integers (and
ignores `allowed_years` entirely). -/
theorem zero_tolerance_year_gate (opts : ConfigOptions) (record : JsonRecord)
    (sr : SourceRecord) (input : SparseVec) (self_dot : ℚ)
    (document : DatasetWeightedVector) (hforce : opts.force_year = true)
    (hyear : record.year ≠ ("0").data) :
    (opts.year_tolerance = none → 2 ≤ opts.json_schema_version →
      calculate_similarity_score opts record (some sr) input self_dot document =
        match rustParseU32 sr.year with
        | some source_year =>
          if record.allowed_years.contains source_year then
            calculate_base_similarity input self_dot document
          else some 0
        | none => some 0) ∧
      (opts.year_tolerance = none → opts.json_schema_version < 2 →
        calculate_similarity_score opts record (some sr) input self_dot document =
          if record.year = sr.year then calculate_base_similarity input self_dot document
          else some 0) ∧
      (opts.year_tolerance = some 0 →
        (∀ ry sy : Int, rustParseI32 record.year = some ry →
          rustParseI32 sr.year = some sy → (ry - sy).natAbs < 2 ^ 31 →
          calculate_similarity_score opts record (some sr) input self_dot document =
            if ry = sy then calculate_base_similarity input self_dot document
            else some 0) ∧
        (rustParseI32 record.year = none →
          calculate_similarity_score opts record (some sr) input self_dot document =
            some 0) ∧
        (∀ ry : Int, rustParseI32 record.year = some ry → rustParseI32 sr.year = none →
          calculate_similarity_score opts record (some sr) input self_dot document =
            some 0)) := by
  refine ⟨fun htol hv2 => ?_, fun htol hv1 => ?_, fun htol => ?_⟩
  · rw [score_dispatch_forced opts record sr input self_dot document hforce htol]
    unfold calculate_similarity_forced_year
    rw [if_neg hyear, if_pos hv2]
  · rw [score_dispatch_forced opts record sr input self_dot document hforce htol]
    unfold calculate_similarity_forced_year
    rw [if_neg hyear, if_neg (not_le.mpr hv1)]
    by_cases heq : record.year = sr.year <;> simp [heq]
  · refine ⟨fun ry sy hry hsy hrange => ?_, fun hnone => ?_, fun ry hry hsnone => ?_⟩
    · rw [within_tolerance_parsed_eval opts record sr input self_dot document 0 hforce htol
        hyear ry sy hry hsy hrange]
      by_cases heq : ry = sy
      · subst heq
        simp only [sub_self, Int.natAbs_zero, Int.cast_zero, Nat.cast_zero, if_pos rfl]
        rw [if_pos (by norm_num)]
        cases calculate_base_similarity input self_dot document with
        | none => simp
        | some b => simp
      · have hpos : 0 < ((ry - sy).natAbs : Int) := by
          have : ry - sy ≠ 0 := sub_ne_zero.mpr heq
          omega
        rw [if_neg (by omega), if_neg heq]
    · rw [score_dispatch_tolerance opts record sr input self_dot document 0 hforce htol]
      unfold calculate_similarity_within_year_tolerance
      rw [if_neg hyear, htol]
      simp only [hnone]
    · rw [score_dispatch_tolerance opts record sr input self_dot document 0 hforce htol]
      unfold calculate_similarity_within_year_tolerance
      rw [if_neg hyear, htol]
      simp only [hry, hsnone]

/-- C3 counterexample: schema v1, `force_year`, `year_tolerance` explicitly set
to 0, input year "0490" and reference year "490".  The year strings differ, so
the claim demands score 0; but with the tolerance set the code takes the
numeric path, the two years parse to the equal integer 490, and the candidate
scores the base cosine 1. -/
theorem zero_tolerance_year_gate_counterexample :
    (("0490").data : Str) ≠ ("490").data ∧
      calculate_similarity_score ⟨true, some 0, DEFAULT_YEAR_TOLERANCE_PENALTY, 1, none⟩
        ⟨1, [], [], [], ("0490").data, [], []⟩ (some ⟨[], [], [], [], ("490").data⟩)
        [(0, 1)] 1 ⟨[], [(0, 1)], 1⟩ = some 1 ∧
      some (1 : ℚ) ≠ some 0 := by
  refine ⟨by decide, ?_, by simp⟩
  have h1 : rustParseI32 (("0490").data) = some 490 := by decide
  have h2 : rustParseI32 (("490").data) = some 490 := by decide
  rw [within_tolerance_parsed_eval _ _ _ _ _ _ 0 rfl rfl (by decide) 490 490 h1 h2
    (by decide)]
  norm_num [calculate_base_similarity, cosine_similarity, dot_product, fdiv,
    DEFAULT_YEAR_TOLERANCE_PENALTY]

/-- Witness for C3 (amended) on the tolerance-unset v2 path: reference year
1990 is in the allowed list, so the candidate scores the base cosine. -/
theorem zero_tolerance_year_gate_witness :
    calculate_similarity_score ⟨true, none, DEFAULT_YEAR_TOLERANCE_PENALTY, 2, none⟩
        ⟨1, [], [], [], ("1990").data, [], [1990]⟩ (some ⟨[], [], [], [], ("1990").data⟩)
        [(0, 1)] 1 ⟨[], [(0, 1)], 1⟩ =
      match rustParseU32 (("1990").data) with
      | some source_year =>
        if ([1990] : List Nat).contains source_year then
          calculate_base_similarity [(0, 1)] 1 ⟨[], [(0, 1)], 1⟩
        else some 0
      | none => some 0 :=
  (zero_tolerance_year_gate ⟨true, none, DEFAULT_YEAR_TOLERANCE_PENALTY, 2, none⟩
      ⟨1, [], [], [], ("1990").data, [], [1990]⟩ ⟨[], [], [], [], ("1990").data⟩
      [(0, 1)] 1 ⟨[], [(0, 1)], 1⟩ rfl (by decide)).1 rfl (by decide)

namespace tokenizer

/-- Sentinel start symbol U+0001 (src/src/tokenizer.rs). -/
def STARTSYMBOL : Char := Char.ofNat 1

/-- Sentinel end symbol U+0002 (src/src/tokenizer.rs). -/
def ENDSYMBOL : Char := Char.ofNat 2

/-- Reserved unknown symbol U+0003, vocab index 0 (src/src/tokenizer.rs). -/
def UNKNOWN : Char := Char.ofNat 3

/-- Fragment of Rust `char::is_numeric` (true for the Unicode general
categories Nd, Nl, No).  The model is exact on Latin-1 — ASCII digits together
with the Latin-1 `No` characters ¹ ² ³ ¼ ½ ¾ — and on the Arabic-Indic,
Extended Arabic-Indic and Devanagari digit blocks; code points outside these
ranges are mapped to false. -/
def rustIsNumeric (c : Char) : Bool :=
  let n := c.toNat
  (0x30 ≤ n && n ≤ 0x39) || n == 0xB2 || n == 0xB3 || n == 0xB9 ||
    (0xBC ≤ n && n ≤ 0xBE) || (0x660 ≤ n && n ≤ 0x669) ||
    (0x6F0 ≤ n && n ≤ 0x6F9) || (0x966 ≤ n && n ≤ 0x96F)

/-- Fragment of Rust `char::is_alphanumeric` (Alphabetic or Nd/Nl/No), exact
on Latin-1; code points above U+00FF are mapped to false, which does not
affect `normalize` because it removes all characters above U+00FF anyway. -/
def rustIsAlphanumeric (c : Char) : Bool :=
  let n := c.toNat
  (0x41 ≤ n && n ≤ 0x5A) || (0x61 ≤ n && n ≤ 0x7A) || n == 0xAA || n == 0xB5 ||
    n == 0xBA || (0xC0 ≤ n && n ≤ 0xD6) || (0xD8 ≤ n && n ≤ 0xF6) ||
    (0xF8 ≤ n && n ≤ 0xFF) || rustIsNumeric c

/-- Rust `char::is_control` (Unicode Cc), which is exactly the C0 and C1
ranges. -/
def rustIsControl (c : Char) : Bool :=
  let n := c.toNat
  n < 0x20 || (0x7F ≤ n && n ≤ 0x9F)

/-- Rust `char::is_whitespace` (Unicode White_Space), a complete list. -/
def rustIsWhitespace (c : Char) : Bool :=
  let n := c.toNat
  (0x9 ≤ n && n ≤ 0xD) || n == 0x20 || n == 0x85 || n == 0xA0 || n == 0x1680 ||
    (0x2000 ≤ n && n ≤ 0x200A) || n == 0x2028 || n == 0x2029 || n == 0x202F ||
    n == 0x205F || n == 0x3000

/-- Fragment of Rust `str::to_lowercase`, restricted to characters whose
lowercase form is the single shifted character: exact on ASCII and on the
Latin-1 uppercase letters; other characters are left unchanged. -/
def rustLowerChar (c : Char) : Char :=
  let n := c.toNat
  if 0x41 ≤ n ∧ n ≤ 0x5A then Char.ofNat (n + 0x20)
  else if (0xC0 ≤ n ∧ n ≤ 0xD6) ∨ (0xD8 ≤ n ∧ n ≤ 0xDE) then Char.ofNat (n + 0x20)
  else c

/-- Rust `str::trim`: drop Unicode whitespace from both ends. -/
def rustTrim (s : Str) : Str :=
  ((s.dropWhile rustIsWhitespace).reverse.dropWhile rustIsWhitespace).reverse

/-- Embedding of `normalize` (src/src/tokenizer.rs lines 40-52): lowercase,
remove punctuation except `-` and space, remove characters above Latin-1,
remove control characters, trim.  The Rust `replace(pattern, "")` calls remove
the matching characters, i.e. keep the non-matching ones. -/
def normalize (text : Str) : Str :=
  let text := text.map rustLowerChar
  let text := text.filter (fun c => !(!rustIsAlphanumeric c && c != '-' && c != ' '))
  let text := text.filter (fun c => !(c.toNat > 255))
  let text := text.filter (fun c => !rustIsControl c)
  rustTrim text

/-- Embedding of `add_surrounding_tokens` (src/src/tokenizer.rs): U+0001 in
front, U+0002 behind. -/
def add_surrounding_tokens (text : Str) : Str :=
  STARTSYMBOL :: (text ++ [ENDSYMBOL])

/-- Sliding windows of length `n` over a character sequence, as produced by
Rust `slice::windows(n)` (for `n ≥ 1`). -/
def windowsN (n : Nat) : Str → List Str
  | [] => []
  | c :: rest =>
    if n ≤ (c :: rest).length then (c :: rest).take n :: windowsN n rest else []

/-- `HashMap` entry-or-insert used by the tokenizers: add one occurrence of
token `t`.  The map is modelled as an association list in first-insertion
order; all downstream facts are independent of the order. -/
def addTok (tokens : List (Str × Nat)) (t : Str) : List (Str × Nat) :=
  match tokens with
  | [] => [(t, 1)]
  | (k, c) :: r => if k = t then (k, c + 1) :: r else (k, c) :: addTok r t

/-- Embedding of `tokenize_ngram` (src/src/tokenizer.rs lines 18-26): count
every length-`n` window into the shared token map. -/
def tokenize_ngram (s : Str) (n : Nat) (tokens : List (Str × Nat)) : List (Str × Nat) :=
  (windowsN n s).foldl addTok tokens

/-- Embedding of `tokenize_string` (src/src/tokenizer.rs lines 8-15):
normalize, wrap in sentinels, then count all 2-grams and 3-grams into one
map. -/
def tokenize_string (s : Str) : List (Str × Nat) :=
  let s1 := normalize s
  let s2 := add_surrounding_tokens s1
  tokenize_ngram s2 3 (tokenize_ngram s2 2 [])

/-- Embedding of `tokenize_year` (src/src/tokenizer.rs lines 29-38): abort
unless `year.len() == 4` (UTF-8 byte length) and every char satisfies
`char::is_numeric`; otherwise emit the single token with count 1. -/
def tokenize_year (year : Str) : List (Str × Nat) :=
  if byteLen year ≠ 4 || !(year.all rustIsNumeric) then []
  else [(year, 1)]

end tokenizer

/-- The claim's acceptance predicate: exactly 4 ASCII digits. -/
def isFourAsciiDigits (s : Str) : Bool :=
  s.length == 4 && s.all isAsciiDigit

/-- C5 counterexample: "¾¾" is two characters of two UTF-8 bytes each, so its
byte length is 4, and ¾ (U+00BE, category No) is `char::is_numeric`; hence
`tokenize_year` accepts it and emits the singleton mapping, although it is
not a string of 4 ASCII digits (nor of non-ASCII digits rejected by the
claim). -/
theorem tokenize_year_counterexample :
    tokenizer.tokenize_year (("¾¾").data) = [(("¾¾").data, 1)] ∧
      isFourAsciiDigits (("¾¾").data) = false := by
  constructor <;> decide

/-- C5 (amended): `tokenize_year s` returns the singleton mapping `{s → 1}`
iff the UTF-8 byte length of `s` is 4 and every character of `s` is
Unicode-numeric (Rust `char::is_numeric`), and the empty mapping otherwise.
Strings of 4 ASCII digits are a special case of the acceptance condition,
but not the whole of it. -/
theorem tokenize_year_characterization (s : Str) :
    (tokenizer.tokenize_year s = [(s, 1)] ↔
        (byteLen s = 4 ∧ s.all tokenizer.rustIsNumeric = true)) ∧
      (tokenizer.tokenize_year s = [] ↔
        ¬(byteLen s = 4 ∧ s.all tokenizer.rustIsNumeric = true)) := by
  unfold tokenizer.tokenize_year
  by_cases h4 : byteLen s = 4 <;> by_cases hn : s.all tokenizer.rustIsNumeric <;>
    simp [h4, hn]

/-- Embedding of `VocabPartType` (src/src/vocab.rs). -/
inductive VocabPartType where
  | Ngram : VocabPartType
  | Year : VocabPartType

/-- Embedding of `VocabPart` (src/src/vocab.rs): per-field token map
`token → (global word index, document count)` and the precomputed idf values
indexed by global word index.  Idf values are data loaded with the vocab; the
`f64` values are modelled as exact rationals. -/
structure VocabPart where
  part_type : VocabPartType
  tokens : List (Str × (Nat × Nat))
  idf : List ℚ

/-- Embedding of `VocabPart::new` (src/src/vocab.rs lines 56-67): the token
map starts with the reserved unknown token at index 0 with document count 0,
and an empty idf table. -/
def VocabPart.new (part_type : VocabPartType) : VocabPart :=
  ⟨part_type, [([tokenizer.UNKNOWN], (0, 0))], []⟩

/-- Embedding of `calculate_single_idf` (src/src/vocab.rs lines 131-139),
parameterized by an oracle for `f64::log10` (which has no rational
counterpart).  Every verified fact about it either holds for all oracles or
pins the oracle's value in the statement; the `doc_count = 0` branch returns 0
before the logarithm is ever taken. -/
def calculate_single_idf (log10 : ℚ → ℚ) (total_docs doc_count : Nat) : ℚ :=
  if doc_count = 0 then 0
  else log10 ((total_docs : ℚ) / (doc_count : ℚ))

/-- Embedding of `calculate_idf` (src/src/vocab.rs lines 122-129): a dense idf
table over the whole vocabulary, filled per token from its document count. -/
def calculate_idf (log10 : ℚ → ℚ) (vocab_size : Nat) (total_docs : Nat)
    (doc_counts : List (Str × (Nat × Nat))) : List ℚ :=
  doc_counts.foldl
    (fun idfs p => idfs.set p.2.1 (calculate_single_idf log10 total_docs p.2.2))
    (List.replicate vocab_size 0)

/-- The vocab index a token is scored at by `process_part`: its index in the
part's token map, or the reserved index 0 when unknown. -/
def tokenIndex (vocab_part : VocabPart) (token : Str) : Nat :=
  match vocab_part.tokens.lookup token with
  | some p => p.1
  | none => 0

/-- `tf[i] += 1.0` of `process_part`, on exact counts. -/
def bump (tf : List Nat) (i : Nat) : List Nat := tf.set i (tf.getD i 0 + 1)

/-- The TF accumulation loop of `process_part` (src/src/vectorize.rs lines
109-116): one bump per map key — the occurrence count stored in the token map
is bound to `_` and discarded by the source. -/
def buildTf (tokens : List (Str × Nat)) (vocab_part : VocabPart) (words_len : Nat) :
    List Nat :=
  tokens.foldl (fun tf t => bump tf (tokenIndex vocab_part t.1)) (List.replicate words_len 0)

/-- The sparsification loop of `process_part` (src/src/vectorize.rs lines
118-127): skip zero counts (`*count <= 0.0`, and counts are naturals), emit
`(index, count * idf[index])` otherwise. -/
def sparsify (idf : List ℚ) : Nat → List Nat → SparseVec
  | _, [] => []
  | i, c :: rest =>
    if c = 0 then sparsify idf (i + 1) rest
    else (i, (c : ℚ) * idf.getD i 0) :: sparsify idf (i + 1) rest

/-- Embedding of `process_part` (src/src/vectorize.rs lines 107-130). -/
def process_part (tokens : List (Str × Nat)) (vocab_part : VocabPart)
    (words_len : Nat) : SparseVec :=
  sparsify vocab_part.idf 0 (buildTf tokens vocab_part words_len)

/-- The number of token-map keys scored at index `i` — for a well-formed vocab
this is 1 for each known token present and, at index 0, the number of distinct
unknown tokens. -/
def countTokensAt (tokens : List (Str × Nat)) (vocab_part : VocabPart) (i : Nat) : Nat :=
  (tokens.filter (fun t => tokenIndex vocab_part t.1 == i)).length

theorem getD_set_self (l : List Nat) (i : Nat) (h : i < l.length) (v : Nat) :
    (l.set i v).getD i 0 = v := by
  simp [List.getD_eq_getElem?_getD, List.getElem?_set_self', h]

theorem getD_set_ne (l : List Nat) (i j : Nat) (h : i ≠ j) (v : Nat) :
    (l.set i v).getD j 0 = l.getD j 0 := by
  simp [List.getD_eq_getElem?_getD, List.getElem?_set_ne h]

theorem bump_length (tf : List Nat) (i : Nat) : (bump tf i).length = tf.length := by
  simp [bump]

theorem buildTf_fold_length (vocab_part : VocabPart) :
    ∀ (tokens : List (Str × Nat)) (tf : List Nat),
      (tokens.foldl (fun tf t => bump tf (tokenIndex vocab_part t.1)) tf).length =
        tf.length := by
  intro tokens
  induction tokens with
  | nil => intro tf; rfl
  | cons t ts ih =>
    intro tf
    rw [List.foldl_cons, ih, bump_length]

theorem buildTf_fold_getD (vocab_part : VocabPart) :
    ∀ (tokens : List (Str × Nat)) (tf : List Nat) (i : Nat), i < tf.length →
      (∀ t ∈ tokens, tokenIndex vocab_part t.1 < tf.length) →
      (tokens.foldl (fun tf t => bump tf (tokenIndex vocab_part t.1)) tf).getD i 0 =
        tf.getD i 0 + countTokensAt tokens vocab_part i := by
  intro tokens
  induction tokens with
  | nil => intro tf i hi _; simp [countTokensAt]
  | cons t ts ih =>
    intro tf i hi hidx
    rw [List.foldl_cons]
    rw [ih (bump tf (tokenIndex vocab_part t.1)) i (by rw [bump_length]; exact hi)
      (fun u hu => by rw [bump_length]; exact hidx u (List.mem_cons_of_mem _ hu))]
    by_cases he : tokenIndex vocab_part t.1 = i
    · rw [he]
      unfold bump
      rw [getD_set_self tf i hi]
      have : countTokensAt (t :: ts) vocab_part i = countTokensAt ts vocab_part i + 1 := by
        unfold countTokensAt
        simp [List.filter_cons, he]
      omega
    · unfold bump
      rw [getD_set_ne tf _ i he]
      have : countTokensAt (t :: ts) vocab_part i = countTokensAt ts vocab_part i := by
        unfold countTokensAt
        simp [List.filter_cons, he]
      omega

theorem filterMap_congr_mem {α β : Type} (f g : α → Option β) :
    ∀ l : List α, (∀ a ∈ l, f a = g a) → l.filterMap f = l.filterMap g := by
  intro l
  induction l with
  | nil => intro _; rfl
  | cons a as ih =>
    intro h
    rw [List.filterMap_cons, List.filterMap_cons, h a (List.mem_cons_self a as),
      ih (fun b hb => h b (List.mem_cons_of_mem _ hb))]

theorem sparsify_eq (idf : List ℚ) :
    ∀ (l : List Nat) (off : Nat),
      sparsify idf off l = (List.range l.length).filterMap (fun j =>
        if l.getD j 0 = 0 then none
        else some (off + j, (l.getD j 0 : ℚ) * idf.getD (off + j) 0)) := by
  intro l
  induction l with
  | nil => intro off; rfl
  | cons c rest ih =>
    intro off
    have hstep : sparsify idf off (c :: rest) =
        if c = 0 then sparsify idf (off + 1) rest
        else (off, (c : ℚ) * idf.getD off 0) :: sparsify idf (off + 1) rest := rfl
    have hshift : (List.range rest.length).filterMap (fun j =>
          if rest.getD j 0 = 0 then none
          else some ((off + 1) + j, (rest.getD j 0 : ℚ) * idf.getD ((off + 1) + j) 0)) =
        (List.range rest.length).filterMap ((fun j =>
          if (c :: rest).getD j 0 = 0 then none
          else some (off + j, ((c :: rest).getD j 0 : ℚ) * idf.getD (off + j) 0)) ∘
            Nat.succ) := by
      apply filterMap_congr_mem
      intro j _
      have harith : off + (j + 1) = (off + 1) + j := by omega
      simp [Function.comp, List.getD_cons_succ, Nat.succ_eq_add_one, harith]
    rw [hstep, List.length_cons, List.range_succ_eq_map, List.filterMap_cons,
      List.filterMap_map, ← hshift, ih (off + 1)]
    by_cases hc : c = 0
    · simp [List.getD_cons_zero, hc]
    · simp [List.getD_cons_zero, hc]

/-- Full characterization of `process_part`: the emitted sparse vector has one
entry per index with a nonzero key count, valued `count * idf[index]`, where
the count is the number of distinct token-map keys at that index. -/
theorem process_part_characterization (tokens : List (Str × Nat))
    (vocab_part : VocabPart) (words_len : Nat)
    (hidx : ∀ t ∈ tokens, tokenIndex vocab_part t.1 < words_len) :
    process_part tokens vocab_part words_len =
      (List.range words_len).filterMap (fun i =>
        if countTokensAt tokens vocab_part i = 0 then none
        else some (i, (countTokensAt tokens vocab_part i : ℚ) *
          vocab_part.idf.getD i 0)) := by
  unfold process_part buildTf
  have hlen : (tokens.foldl (fun tf t => bump tf (tokenIndex vocab_part t.1))
      (List.replicate words_len 0)).length = words_len := by
    rw [buildTf_fold_length]; exact List.length_replicate words_len 0
  rw [sparsify_eq, hlen]
  apply filterMap_congr_mem
  intro j hj
  have hjlt : j < words_len := List.mem_range.mp hj
  have hget : (tokens.foldl (fun tf t => bump tf (tokenIndex vocab_part t.1))
      (List.replicate words_len 0)).getD j 0 = countTokensAt tokens vocab_part j := by
    rw [buildTf_fold_getD vocab_part tokens (List.replicate words_len 0) j
      (by rw [List.length_replicate]; exact hjlt)
      (fun t ht => by rw [List.length_replicate]; exact hidx t ht)]
    simp [List.getD_replicate_default_eq]
  rw [hget]
  simp

/-- A small concrete vocab part for concrete evaluations: the reserved unknown
token at index 0 with document count 0 (as `VocabPart::new` creates it) and
the known token "aa" at index 1 with document count 1; the idf table is the
one `calculate_idf` computes for 10 total documents, where idf[0] = 0 because
the unknown token's document count is 0 and idf[1] = log10(10/1) = 1 (the
log10 oracle is pinned at the single point 10 where it is evaluated). -/
def vpEx : VocabPart :=
  ⟨VocabPartType.Ngram, [([tokenizer.UNKNOWN], (0, 0)), ((("aa").data), (1, 1))], [0, 1]⟩

/-- C2 (amended): the weight `process_part` gives an index is
`TF * idf[index]` where TF is the number of distinct token-map keys scored at
that index — 1 for each known token that occurs at all, its occurrence count
being discarded, and at the reserved index 0 the number of distinct unknown
tokens — not the raw occurrence count of the claim. -/
theorem process_part_weights (tokens : List (Str × Nat)) (vocab_part : VocabPart)
    (words_len : Nat)
    (hidx : ∀ t ∈ tokens, tokenIndex vocab_part t.1 < words_len) :
    process_part tokens vocab_part words_len =
      (List.range words_len).filterMap (fun i =>
        if countTokensAt tokens vocab_part i = 0 then none
        else some (i, (countTokensAt tokens vocab_part i : ℚ) *
          vocab_part.idf.getD i 0)) :=
  process_part_characterization tokens vocab_part words_len hidx

theorem buildTf_aaa_eval :
    buildTf (tokenizer.tokenize_string (("aaa").data)) vpEx 2 = [5, 1] := by decide

theorem process_part_aaa_eval :
    process_part (tokenizer.tokenize_string (("aaa").data)) vpEx 2 = [(0, 0), (1, 1)] := by
  unfold process_part
  rw [buildTf_aaa_eval]
  show sparsify vpEx.idf 0 [5, 1] = [(0, 0), (1, 1)]
  norm_num [sparsify, vpEx]

/-- C2 counterexample: in the field string "aaa" the 2-gram "aa" occurs twice,
so the claim demands the weight 2 * idf[1] = 2 at index 1; the code discards
the count and emits weight 1 * idf[1] = 1. -/
theorem process_part_weights_counterexample :
    (tokenizer.tokenize_string (("aaa").data)).lookup (("aa").data) = some 2 ∧
      process_part (tokenizer.tokenize_string (("aaa").data)) vpEx 2 = [(0, 0), (1, 1)] ∧
      vpEx.idf.getD 1 0 = 1 ∧
      ((1 : Nat), (2 : ℚ)) ∉ process_part (tokenizer.tokenize_string (("aaa").data)) vpEx 2 := by
  refine ⟨by decide, process_part_aaa_eval, by decide, ?_⟩
  rw [process_part_aaa_eval]
  decide

/-- Witness for C2 (amended) at the concrete "aaa" field and vocab `vpEx`. -/
theorem process_part_weights_witness :
    process_part (tokenizer.tokenize_string (("aaa").data)) vpEx 2 =
      (List.range 2).filterMap (fun i =>
        if countTokensAt (tokenizer.tokenize_string (("aaa").data)) vpEx i = 0 then none
        else some (i, (countTokensAt (tokenizer.tokenize_string (("aaa").data)) vpEx i : ℚ) *
          vpEx.idf.getD i 0)) :=
  process_part_weights (tokenizer.tokenize_string (("aaa").data)) vpEx 2 (by decide)

/-- C6 (amended): `process_part` omits entries whose TF count is zero, but it
does not omit zero *values*: an emitted entry's value is 0 exactly when the
idf at its index is 0, and in particular the zero-valued pair `(0, 0)` is
emitted whenever the field has at least one unknown token, because idf[0] = 0
(the unknown token's document frequency being 0). -/
theorem process_part_zero_entries (tokens : List (Str × Nat)) (vocab_part : VocabPart)
    (words_len : Nat)
    (hidx : ∀ t ∈ tokens, tokenIndex vocab_part t.1 < words_len) :
    (∀ iv ∈ process_part tokens vocab_part words_len,
        countTokensAt tokens vocab_part iv.1 ≠ 0 ∧
          (iv.2 = 0 ↔ vocab_part.idf.getD iv.1 0 = 0)) ∧
      ((∃ t ∈ tokens, vocab_part.tokens.lookup t.1 = none) → 0 < words_len →
        vocab_part.idf.getD 0 0 = 0 →
        (0, (0 : ℚ)) ∈ process_part tokens vocab_part words_len) := by
  constructor
  · intro iv hiv
    rw [process_part_characterization tokens vocab_part words_len hidx] at hiv
    rcases List.mem_filterMap.mp hiv with ⟨i, _, hfi⟩
    by_cases hcnt : countTokensAt tokens vocab_part i = 0
    · rw [if_pos hcnt] at hfi
      exact absurd hfi (by simp)
    · rw [if_neg hcnt] at hfi
      obtain rfl := Option.some.inj hfi
      refine ⟨hcnt, ?_⟩
      show (countTokensAt tokens vocab_part i : ℚ) * vocab_part.idf.getD i 0 = 0 ↔
        vocab_part.idf.getD i 0 = 0
      rw [mul_eq_zero]
      constructor
      · rintro (hl | hr)
        · exact absurd (Nat.cast_eq_zero.mp hl) hcnt
        · exact hr
      · exact fun h => Or.inr h
  · rintro ⟨t, ht, hunk⟩ hwl hidf0
    have hti : tokenIndex vocab_part t.1 = 0 := by
      unfold tokenIndex
      rw [hunk]
    have hcnt : countTokensAt tokens vocab_part 0 ≠ 0 := by
      unfold countTokensAt
      have : t ∈ tokens.filter (fun u => tokenIndex vocab_part u.1 == 0) :=
        List.mem_filter.mpr ⟨ht, by simp [hti]⟩
      have := List.length_pos.mpr (List.ne_nil_of_mem this)
      omega
    rw [process_part_characterization tokens vocab_part words_len hidx]
    refine List.mem_filterMap.mpr ⟨0, List.mem_range.mpr hwl, ?_⟩
    rw [if_neg hcnt, hidf0, mul_zero]

/-- C6 counterexample: the field string "aaa" has five distinct unknown
2/3-grams, and idf[0] = 0 as `calculate_idf` computes it from the unknown
token's zero document count, so the code emits the zero-valued pair (0, 0) at
the reserved index 0. -/
theorem process_part_zero_entry_counterexample :
    (0, (0 : ℚ)) ∈ process_part (tokenizer.tokenize_string (("aaa").data)) vpEx 2 ∧
      vpEx.idf = calculate_idf (fun _ => 1) 2 10 vpEx.tokens ∧
      calculate_single_idf (fun _ => 1) 10 0 = 0 := by
  refine ⟨?_, by decide, by decide⟩
  rw [process_part_aaa_eval]
  decide

/-- Witness for C6 (amended) at the concrete field string "aab", which
contains unknown tokens, so the zero-valued pair (0, 0) is emitted. -/
theorem process_part_zero_entries_witness :
    (0, (0 : ℚ)) ∈ process_part (tokenizer.tokenize_string (("aab").data)) vpEx 2 :=
  (process_part_zero_entries (tokenizer.tokenize_string (("aab").data)) vpEx 2
    (by decide)).2 (by decide) (by decide) (by decide)

/-- Rust `Ord` on `String`: byte-wise lexicographic comparison, which on valid
UTF-8 coincides with code-point lexicographic comparison, modelled here. -/
def cmpChars : Str → Str → Ordering
  | [], [] => Ordering.eq
  | [], _ :: _ => Ordering.lt
  | _ :: _, [] => Ordering.gt
  | a :: as, b :: bs =>
    if a < b then Ordering.lt
    else if b < a then Ordering.gt
    else cmpChars as bs

/-- The comparator of `maximal_overlaps` stage 2 (src/src/overlap.rs lines
113-116): byte length descending, ties broken by ascending lexicographic
order. -/
def candCmp (x y : Str) : Ordering :=
  match compare (byteLen y) (byteLen x) with
  | Ordering.eq => cmpChars x y
  | o => o

/-- The non-strict version of the stage-2 comparator, used for sortedness. -/
def candLe (x y : Str) : Prop := candCmp x y ≠ Ordering.gt

instance candLe.decidableRel : DecidableRel candLe := fun x y => by
  unfold candLe
  infer_instance

theorem cmpChars_eq_iff : ∀ x y : Str, cmpChars x y = Ordering.eq ↔ x = y := by
  intro x
  induction x with
  | nil => intro y; cases y <;> simp [cmpChars]
  | cons a as ih =>
    intro y
    cases y with
    | nil => simp [cmpChars]
    | cons b bs =>
      by_cases hab : a < b
      · simp [cmpChars, hab]
        intro h
        exact absurd (h ▸ hab) (lt_irrefl b)
      · by_cases hba : b < a
        · simp [cmpChars, hab, hba]
          intro h
          exact absurd (h ▸ hba) (lt_irrefl b)
        · have heq : a = b := le_antisymm (not_lt.mp hba) (not_lt.mp hab)
          simp [cmpChars, hab, hba, heq, ih bs]

theorem cmpChars_swap : ∀ x y : Str, cmpChars y x = (cmpChars x y).swap := by
  intro x
  induction x with
  | nil => intro y; cases y <;> simp [cmpChars, Ordering.swap]
  | cons a as ih =>
    intro y
    cases y with
    | nil => simp [cmpChars, Ordering.swap]
    | cons b bs =>
      by_cases hab : a < b
      · simp [cmpChars, hab, asymm hab, Ordering.swap]
      · by_cases hba : b < a
        · simp [cmpChars, hab, hba, Ordering.swap]
        · simp [cmpChars, hab, hba, ih bs]

theorem cmpChars_lt_trans : ∀ x y z : Str, cmpChars x y = Ordering.lt →
    cmpChars y z = Ordering.lt → cmpChars x z = Ordering.lt := by
  intro x
  induction x with
  | nil =>
    intro y z hxy hyz
    cases y with
    | nil => simp [cmpChars] at hxy
    | cons b bs =>
      cases z with
      | nil => simp [cmpChars] at hyz
      | cons c cs => simp [cmpChars]
  | cons a as ih =>
    intro y z hxy hyz
    cases y with
    | nil => simp [cmpChars] at hxy
    | cons b bs =>
      cases z with
      | nil => simp [cmpChars] at hyz
      | cons c cs =>
        by_cases hab : a < b
        · by_cases hbc : b < c
          · simp [cmpChars, lt_trans hab hbc]
          · by_cases hcb : c < b
            · simp [cmpChars, hbc, hcb] at hyz
            · have heq : b = c := le_antisymm (not_lt.mp hcb) (not_lt.mp hbc)
              subst heq
              simp [cmpChars, hab]
        · by_cases hba : b < a
          · simp [cmpChars, hab, hba] at hxy
          · have heq : a = b := le_antisymm (not_lt.mp hba) (not_lt.mp hab)
            subst heq
            simp only [cmpChars, lt_irrefl, if_neg (lt_irrefl a), if_false] at hxy
            by_cases hac : a < c
            · simp [cmpChars, hac]
            · by_cases hca : c < a
              · simp [cmpChars, hac, hca] at hyz
              · have heq2 : a = c := le_antisymm (not_lt.mp hca) (not_lt.mp hac)
                subst heq2
                simp only [cmpChars, lt_irrefl, if_neg (lt_irrefl a), if_false] at hyz ⊢
                exact ih bs cs hxy hyz

theorem candCmp_eq_iff (x y : Str) : candCmp x y = Ordering.eq ↔ x = y := by
  unfold candCmp
  cases hc : compare (byteLen y) (byteLen x) with
  | eq => exact cmpChars_eq_iff x y
  | lt =>
    simp only [reduceCtorEq, false_iff]
    intro h
    subst h
    rw [Nat.compare_eq_lt] at hc
    exact absurd hc (lt_irrefl _)
  | gt =>
    simp only [reduceCtorEq, false_iff]
    intro h
    subst h
    rw [Nat.compare_eq_gt] at hc
    exact absurd hc (lt_irrefl _)

theorem natCompare_swap (m n : Nat) : compare n m = (compare m n).swap := by
  rcases lt_trichotomy m n with h | h | h
  · rw [Nat.compare_eq_lt.mpr h, Nat.compare_eq_gt.mpr h]
    rfl
  · subst h
    rw [Nat.compare_eq_eq.mpr rfl]
    rfl
  · rw [Nat.compare_eq_gt.mpr h, Nat.compare_eq_lt.mpr h]
    rfl

theorem candCmp_swap (x y : Str) : candCmp y x = (candCmp x y).swap := by
  unfold candCmp
  rw [natCompare_swap (byteLen y) (byteLen x), cmpChars_swap]
  cases compare (byteLen y) (byteLen x) <;> simp [Ordering.swap]

theorem candCmp_lt_trans {x y z : Str} (hxy : candCmp x y = Ordering.lt)
    (hyz : candCmp y z = Ordering.lt) : candCmp x z = Ordering.lt := by
  unfold candCmp at hxy hyz ⊢
  cases hc1 : compare (byteLen y) (byteLen x) with
  | lt =>
    rw [Nat.compare_eq_lt] at hc1
    cases hc2 : compare (byteLen z) (byteLen y) with
    | lt =>
      rw [Nat.compare_eq_lt] at hc2
      rw [Nat.compare_eq_lt.mpr (lt_trans hc2 hc1)]
    | eq =>
      rw [Nat.compare_eq_eq] at hc2
      rw [Nat.compare_eq_lt.mpr (hc2 ▸ hc1)]
    | gt =>
      rw [hc2] at hyz
      exact absurd hyz (by simp)
  | eq =>
    rw [Nat.compare_eq_eq] at hc1
    rw [hc1] at hxy
    rw [Nat.compare_eq_eq.mpr rfl] at hxy
    cases hc2 : compare (byteLen z) (byteLen y) with
    | lt =>
      rw [Nat.compare_eq_lt] at hc2
      rw [Nat.compare_eq_lt.mpr (hc1 ▸ hc2)]
    | eq =>
      rw [Nat.compare_eq_eq] at hc2
      rw [Nat.compare_eq_eq.mpr hc2] at hyz
      rw [Nat.compare_eq_eq.mpr (hc2.trans hc1)]
      exact cmpChars_lt_trans x y z hxy hyz
    | gt =>
      rw [hc2] at hyz
      exact absurd hyz (by simp)
  | gt =>
    rw [hc1] at hxy
    exact absurd hxy (by simp)

theorem candLe_total (x y : Str) : candLe x y ∨ candLe y x := by
  unfold candLe
  rw [candCmp_swap x y]
  cases h : candCmp x y <;> simp [Ordering.swap]

theorem candLe_trans {x y z : Str} (hxy : candLe x y) (hyz : candLe y z) :
    candLe x z := by
  unfold candLe at hxy hyz ⊢
  cases h1 : candCmp x y with
  | gt => exact absurd h1 hxy
  | eq =>
    obtain rfl := (candCmp_eq_iff x y).mp h1
    exact hyz
  | lt =>
    cases h2 : candCmp y z with
    | gt => exact absurd h2 hyz
    | eq =>
      obtain rfl := (candCmp_eq_iff y z).mp h2
      rw [h1]
      simp
    | lt =>
      rw [candCmp_lt_trans h1 h2]
      simp

theorem candLe_antisymm {x y : Str} (hxy : candLe x y) (hyx : candLe y x) : x = y := by
  unfold candLe at hxy hyx
  rw [candCmp_swap] at hyx
  cases h : candCmp x y with
  | eq => exact (candCmp_eq_iff x y).mp h
  | lt => exact absurd (by rw [h]; rfl) hyx
  | gt => exact absurd h hxy

theorem candCmp_lt_of_le_ne {x y : Str} (hle : candLe x y) (hne : x ≠ y) :
    candCmp x y = Ordering.lt := by
  cases h : candCmp x y with
  | lt => rfl
  | eq => exact absurd ((candCmp_eq_iff x y).mp h) hne
  | gt => exact absurd h hle

instance candLe.isTotal : IsTotal Str candLe := ⟨candLe_total⟩

instance candLe.isTrans : IsTrans Str candLe := ⟨fun _ _ _ => candLe_trans⟩

/-- `candLe` forces the byte length to be non-increasing. -/
theorem byteLen_le_of_candLe {x y : Str} (h : candLe x y) : byteLen y ≤ byteLen x := by
  unfold candLe candCmp at h
  cases hc : compare (byteLen y) (byteLen x) with
  | lt => exact le_of_lt (Nat.compare_eq_lt.mp hc)
  | eq => exact le_of_eq (Nat.compare_eq_eq.mp hc)
  | gt => rw [hc] at h; exact absurd rfl h

/-- Rust `str::starts_with` on the byte level, modelled on characters. -/
def startsWithStr : Str → Str → Bool
  | [], _ => true
  | _ :: _, [] => false
  | a :: as, b :: bs => a == b && startsWithStr as bs

/-- Rust `str::contains(&s)`: `s` occurs as a (byte) substring of the second
argument; on valid UTF-8 this is the same as occurring as a character
substring, modelled here. -/
def hasSubstr (s : Str) : Str → Bool
  | [] => startsWithStr s []
  | c :: ts => startsWithStr s (c :: ts) || hasSubstr s ts

theorem startsWithStr_iff : ∀ s t : Str, startsWithStr s t = true ↔ ∃ r, s ++ r = t := by
  intro s
  induction s with
  | nil =>
    intro t
    simp [startsWithStr]
  | cons a as ih =>
    intro t
    cases t with
    | nil => simp [startsWithStr]
    | cons b bs =>
      simp only [startsWithStr, Bool.and_eq_true, beq_iff_eq, ih bs, List.cons_append,
        List.cons.injEq]
      constructor
      · rintro ⟨rfl, r, rfl⟩
        exact ⟨r, rfl, rfl⟩
      · rintro ⟨r, rfl, rfl⟩
        exact ⟨rfl, r, rfl⟩

theorem hasSubstr_iff : ∀ s t : Str, hasSubstr s t = true ↔ ∃ u v, u ++ (s ++ v) = t := by
  intro s t
  induction t with
  | nil =>
    simp only [hasSubstr, startsWithStr_iff]
    constructor
    · rintro ⟨r, hr⟩
      exact ⟨[], r, by simpa using hr⟩
    · rintro ⟨u, v, huv⟩
      rcases List.append_eq_nil.mp huv with ⟨rfl, h2⟩
      exact ⟨v, h2⟩
  | cons c ts ih =>
    simp only [hasSubstr, Bool.or_eq_true, startsWithStr_iff, ih]
    constructor
    · rintro (⟨r, hr⟩ | ⟨u, v, huv⟩)
      · exact ⟨[], r, by simpa using hr⟩
      · exact ⟨c :: u, v, by rw [List.cons_append, huv]⟩
    · rintro ⟨u, v, huv⟩
      cases u with
      | nil => exact Or.inl ⟨v, by simpa using huv⟩
      | cons d us =>
        rw [List.cons_append] at huv
        obtain ⟨rfl, h2⟩ := List.cons.inj huv
        exact Or.inr ⟨us, v, h2⟩

theorem hasSubstr_refl (s : Str) : hasSubstr s s = true := by
  rw [hasSubstr_iff]
  exact ⟨[], [], by simp⟩

theorem byteLen_append (a b : Str) : byteLen (a ++ b) = byteLen a + byteLen b := by
  simp [byteLen]

theorem byteLen_eq_zero_iff (s : Str) : byteLen s = 0 ↔ s = [] := by
  cases s with
  | nil => simp [byteLen]
  | cons c cs =>
    simp only [byteLen, List.map_cons, List.sum_cons, List.cons_ne_nil, iff_false]
    have := Char.utf8Size_pos c
    omega

theorem byteLen_le_of_hasSubstr {s t : Str} (h : hasSubstr s t = true) :
    byteLen s ≤ byteLen t := by
  rcases (hasSubstr_iff s t).mp h with ⟨u, v, huv⟩
  subst huv
  rw [byteLen_append, byteLen_append]
  omega

theorem eq_of_hasSubstr_byteLen {s t : Str} (h : hasSubstr s t = true)
    (hl : byteLen t ≤ byteLen s) : s = t := by
  rcases (hasSubstr_iff s t).mp h with ⟨u, v, huv⟩
  subst huv
  rw [byteLen_append, byteLen_append] at hl
  have hu : byteLen u = 0 := by omega
  have hv : byteLen v = 0 := by omega
  rw [byteLen_eq_zero_iff] at hu hv
  subst hu
  subst hv
  simp

/-- Embedding of `SuffixAutomaton` (src/src/overlap.rs): parallel arrays of
transition maps, suffix links (-1 at the root) and maximal recognized
lengths, plus the index of the state for the whole string so far. -/
structure SuffixAutomaton where
  next : List (List (Char × Nat))
  link : List Int
  len : List Nat
  last : Nat

/-- Embedding of `SuffixAutomaton::new` (src/src/overlap.rs lines 12-23): one
root state with no transitions, link -1 and length 0 (the capacity hint does
not affect the contents). -/
def saInit : SuffixAutomaton := ⟨[[]], [-1], [0], 0⟩

/-- `HashMap::insert` on a transition map (replace or append). -/
def transSet (m : List (Char × Nat)) (c : Char) (q : Nat) : List (Char × Nat) :=
  match m with
  | [] => [(c, q)]
  | (d, p) :: r => if d = c then (c, q) :: r else (d, p) :: transSet r c q

/-- The first `while` loop of `add_char` (src/src/overlap.rs lines 31-35):
walk the suffix-link chain from `last`, inserting the transition `c → cur`
while absent.  The walk is bounded by a fuel parameter; along suffix links the
recognized length strictly decreases, so the fuel chosen by `add_char` (one
more than the number of states) is never exhausted on automata the source
builds, and no verified statement depends on the fuel path. -/
def walkFill (link : List Int) (c : Char) (cur : Nat) :
    Nat → List (List (Char × Nat)) → Int → (List (List (Char × Nat)) × Int)
  | 0, nextArr, p => (nextArr, p)
  | fuel + 1, nextArr, p =>
    if p = -1 then (nextArr, p)
    else if ((nextArr.getD p.toNat []).lookup c).isSome then (nextArr, p)
    else
      walkFill link c cur fuel
        (nextArr.set p.toNat (transSet (nextArr.getD p.toNat []) c cur))
        (link.getD p.toNat 0)

/-- The clone-redirect `while` loop of `add_char` (src/src/overlap.rs lines
50-54), fueled like `walkFill`. -/
def cloneRedirect (link : List Int) (c : Char) (q clone : Nat) :
    Nat → List (List (Char × Nat)) → Int → List (List (Char × Nat))
  | 0, nextArr, _ => nextArr
  | fuel + 1, nextArr, p2 =>
    if p2 = -1 then nextArr
    else if (nextArr.getD p2.toNat []).lookup c = some q then
      cloneRedirect link c q clone fuel
        (nextArr.set p2.toNat (transSet (nextArr.getD p2.toNat []) c clone))
        (link.getD p2.toNat 0)
    else nextArr

/-- Embedding of `SuffixAutomaton::add_char` (src/src/overlap.rs lines
25-60). -/
def add_char (sa : SuffixAutomaton) (c : Char) : SuffixAutomaton :=
  let cur := sa.next.length
  let next1 := sa.next ++ [[]]
  let len1 := sa.len ++ [sa.len.getD sa.last 0 + 1]
  let link1 := sa.link ++ [0]
  let wf := walkFill link1 c cur (next1.length + 1) next1 (Int.ofNat sa.last)
  let next2 := wf.1
  let p := wf.2
  if p = -1 then
    ⟨next2, link1.set cur 0, len1, cur⟩
  else
    let pN := p.toNat
    let q := ((next2.getD pN []).lookup c).getD 0
    if len1.getD pN 0 + 1 = len1.getD q 0 then
      ⟨next2, link1.set cur (Int.ofNat q), len1, cur⟩
    else
      let clone := next2.length
      let next3 := next2 ++ [next2.getD q []]
      let len2 := len1 ++ [len1.getD pN 0 + 1]
      let link2 := link1 ++ [link1.getD q 0]
      let next4 := cloneRedirect link2 c q clone (next3.length + 1) next3 p
      let link3 := (link2.set q (Int.ofNat clone)).set cur (Int.ofNat clone)
      ⟨next4, link3, len2, cur⟩

/-- Embedding of `SuffixAutomaton::build` (src/src/overlap.rs lines 62-68). -/
def saBuild (s : Str) : SuffixAutomaton := s.foldl add_char saInit

/-- The suffix-link fallback of the scan loop (src/src/overlap.rs lines
91-93), fueled like the automaton walks. -/
def linkWalk (sa : SuffixAutomaton) (c : Char) : Nat → Nat → Nat
  | 0, v => v
  | fuel + 1, v =>
    if v ≠ 0 ∧ ((sa.next.getD v []).lookup c).isNone then
      linkWalk sa c fuel ((sa.link.getD v 0).toNat)
    else v

/-- `HashSet::insert` on the candidate set, modelled as a duplicate-free
list; the insertion position is irrelevant because the set is sorted by a
total order afterwards. -/
def insertCand (cands : List Str) (s : Str) : List Str :=
  if s ∈ cands then cands else cands ++ [s]

/-- One iteration of the scan over `B` (src/src/overlap.rs lines 85-108):
follow a transition (or fall back along suffix links), update the match
length, and record the matched substring `B[i+1-l ..= i]` when `l > 0`. -/
def scanStep (sa : SuffixAutomaton) (b : Str) (st : Nat × Nat × List Str)
    (ic : Nat × Char) : Nat × Nat × List Str :=
  let v := st.1
  let l := st.2.1
  let cands := st.2.2
  let i := ic.1
  let c := ic.2
  let vl :=
    match (sa.next.getD v []).lookup c with
    | some tgt => (tgt, l + 1)
    | none =>
      let v1 := linkWalk sa c (sa.next.length + 1) v
      match (sa.next.getD v1 []).lookup c with
      | some tgt => (tgt, sa.len.getD v1 0 + 1)
      | none => (0, 0)
  if vl.2 > 0 then
    (vl.1, vl.2, insertCand cands ((b.take (i + 1)).drop (i + 1 - vl.2)))
  else (vl.1, vl.2, cands)

/-- The candidate set collected by the scan phase of `maximal_overlaps`. -/
def scanCandidates (sa : SuffixAutomaton) (b : Str) : List Str :=
  (b.enum.foldl (scanStep sa b) (0, 0, [])).2.2

/-- Stage 2 filter step of `maximal_overlaps` (src/src/overlap.rs lines
118-127): keep `s` iff no already-kept string contains it. -/
def keepStep (filtered : List Str) (s : Str) : List Str :=
  if filtered.any (fun kept => hasSubstr s kept) then filtered else filtered ++ [s]

/-- Embedding of `maximal_overlaps` (src/src/overlap.rs lines 75-130): build
the suffix automaton of `a`, scan `b` recording the longest match ending at
each position, sort the candidate set by byte length descending with
lexicographic tie-break, then keep each candidate iff no already-kept string
contains it.  The sort is modelled by insertion sort: the comparator is a
strict total order on the distinct candidates, so the sorted sequence is the
same for every correct sorting algorithm. -/
def maximal_overlaps (a b : Str) : List Str :=
  let sa := saBuild a
  let candidates := scanCandidates sa b
  let list := List.insertionSort candLe candidates
  list.foldl keepStep []

theorem keepStep_pos {kept : List Str} {s : Str}
    (hc : kept.any (fun k => hasSubstr s k) = true) : keepStep kept s = kept :=
  if_pos hc

theorem keepStep_neg {kept : List Str} {s : Str}
    (hc : ¬kept.any (fun k => hasSubstr s k) = true) :
    keepStep kept s = kept ++ [s] :=
  if_neg hc

/-- The stage-2 filter only ever appends, and appends a subsequence of its
input. -/
theorem keepFold_append : ∀ (l kept : List Str),
    ∃ r, l.foldl keepStep kept = kept ++ r ∧ r.Sublist l := by
  intro l
  induction l with
  | nil => intro kept; exact ⟨[], by simp, List.Sublist.refl []⟩
  | cons s ls ih =>
    intro kept
    rw [List.foldl_cons]
    by_cases hc : kept.any (fun k => hasSubstr s k) = true
    · rw [keepStep_pos hc]
      rcases ih kept with ⟨r, h1, h2⟩
      exact ⟨r, h1, h2.cons s⟩
    · rw [keepStep_neg hc]
      rcases ih (kept ++ [s]) with ⟨r, h1, h2⟩
      refine ⟨s :: r, ?_, h2.cons₂ s⟩
      rw [h1, List.append_assoc]
      rfl

/-- The stage-2 filter never duplicates an element: a string already kept is
its own substring, so the `any` test blocks it. -/
theorem keepFold_nodup : ∀ (l kept : List Str), kept.Nodup →
    (l.foldl keepStep kept).Nodup := by
  intro l
  induction l with
  | nil => intro kept h; exact h
  | cons s ls ih =>
    intro kept hnd
    rw [List.foldl_cons]
    by_cases hc : kept.any (fun k => hasSubstr s k) = true
    · rw [keepStep_pos hc]
      exact ih kept hnd
    · rw [keepStep_neg hc]
      apply ih
      have hs : s ∉ kept := by
        intro hmem
        exact hc (List.any_eq_true.mpr ⟨s, hmem, hasSubstr_refl s⟩)
      simp [List.nodup_append, hnd, hs]

/-- Invariant proof for the no-contained-substring property of the stage-2
filter: processing a sorted list, no kept string is a substring of another. -/
theorem keepFold_no_substr : ∀ (l kept : List Str),
    List.Pairwise candLe l →
    (∀ k ∈ kept, ∀ s ∈ l, candLe k s) →
    (∀ x ∈ kept, ∀ y ∈ kept, x ≠ y → hasSubstr x y = false) →
    ∀ x ∈ l.foldl keepStep kept, ∀ y ∈ l.foldl keepStep kept, x ≠ y →
      hasSubstr x y = false := by
  intro l
  induction l with
  | nil => intro kept _ _ hk; simpa using hk
  | cons s ls ih =>
    intro kept hpw hle hk
    rw [List.foldl_cons]
    by_cases hc : kept.any (fun k => hasSubstr s k) = true
    · rw [keepStep_pos hc]
      exact ih kept hpw.of_cons
        (fun k hkk t ht => hle k hkk t (List.mem_cons_of_mem _ ht)) hk
    · rw [keepStep_neg hc]
      have hnotany : ∀ k ∈ kept, hasSubstr s k = false := by
        intro k hkk
        by_contra hne
        apply hc
        refine List.any_eq_true.mpr ⟨k, hkk, ?_⟩
        revert hne
        cases hasSubstr s k <;> simp
      apply ih (kept ++ [s]) hpw.of_cons
      · intro k hkk t ht
        rcases List.mem_append.mp hkk with hin | hin
        · exact hle k hin t (List.mem_cons_of_mem _ ht)
        · obtain rfl := List.mem_singleton.mp hin
          exact (List.pairwise_cons.mp hpw).1 t ht
      · intro x hx y hy hxy
        rcases List.mem_append.mp hx with hxin | hxin <;>
          rcases List.mem_append.mp hy with hyin | hyin
        · exact hk x hxin y hyin hxy
        · obtain rfl := List.mem_singleton.mp hyin
          cases hsub : hasSubstr x y with
          | false => rfl
          | true =>
            exfalso
            have h1 : byteLen x ≤ byteLen y := byteLen_le_of_hasSubstr hsub
            have h2 : byteLen y ≤ byteLen x :=
              byteLen_le_of_candLe (hle x hxin y (List.mem_cons_self y ls))
            exact hxy (eq_of_hasSubstr_byteLen hsub h2)
        · obtain rfl := List.mem_singleton.mp hxin
          exact hnotany y hyin
        · obtain rfl := List.mem_singleton.mp hxin
          obtain rfl := List.mem_singleton.mp hyin
          exact absurd rfl hxy

/-- C8: for all strings A and B, the list returned by `maximal_overlaps` is
strictly sorted by the stage-2 comparator (byte length decreasing, ties by
ascending lexicographic order), contains no duplicates, and no returned
string is a substring of another returned string. -/
theorem maximal_overlaps_properties (a b : Str) :
    List.Pairwise (fun x y => candCmp x y = Ordering.lt) (maximal_overlaps a b) ∧
      (maximal_overlaps a b).Nodup ∧
      ∀ x ∈ maximal_overlaps a b, ∀ y ∈ maximal_overlaps a b, x ≠ y →
        hasSubstr x y = false := by
  have hnodup : (maximal_overlaps a b).Nodup :=
    keepFold_nodup (List.insertionSort candLe (scanCandidates (saBuild a) b)) []
      List.nodup_nil
  have hsorted : List.Pairwise candLe
      (List.insertionSort candLe (scanCandidates (saBuild a) b)) :=
    List.sorted_insertionSort candLe (scanCandidates (saBuild a) b)
  have hsub : (maximal_overlaps a b).Sublist
      (List.insertionSort candLe (scanCandidates (saBuild a) b)) := by
    rcases keepFold_append (List.insertionSort candLe (scanCandidates (saBuild a) b))
      [] with ⟨r, h1, h2⟩
    unfold maximal_overlaps
    rw [h1]
    simpa using h2
  refine ⟨?_, hnodup, ?_⟩
  · have hple : List.Pairwise candLe (maximal_overlaps a b) := hsorted.sublist hsub
    have := hple.and hnodup
    exact this.imp (fun h => candCmp_lt_of_le_ne h.1 h.2)
  · exact keepFold_no_substr
      (List.insertionSort candLe (scanCandidates (saBuild a) b)) [] hsorted
      (by simp) (by simp)

/-- Witness for C8 at A = "abc", B = "abxbc": the returned overlaps are
["ab", "bc"], and the theorem yields that neither is a substring of the
other. -/
theorem maximal_overlaps_properties_witness :
    hasSubstr (("ab").data) (("bc").data) = false :=
  (maximal_overlaps_properties (("abc").data) (("abxbc").data)).2.2
    (("ab").data) (by decide) (("bc").data) (by decide) (by decide)

/-- Per-character model of Rust `str::to_lowercase` as used on the titles by
`overlap_score`; exact on ASCII and Latin-1 (see `tokenizer.rustLowerChar`). -/
def toLowercaseStr (s : Str) : Str := s.map tokenizer.rustLowerChar

/-- Reinterpretation of an `i32` value as a 64-bit `usize`, as performed by
`config.options.overlap_adjustment.unwrap() as usize`: a negative value wraps
to a huge threshold. -/
def usizeOfI32 (n : Int) : Nat := (n % 2 ^ 64).toNat

/-- Embedding of `overlap_score` (src/src/matcher.rs lines 581-601): clamp the
configured threshold to the input length, return 1.0 when the clamped
threshold is 0, otherwise keep the maximal overlaps of the lowercased strings
whose byte length reaches the threshold and divide their total length by the
input byte length (0 when nothing is retained). -/
def overlap_score (opts : ConfigOptions) (source_string input_string : Str) : ℚ :=
  match opts.overlap_adjustment with
  | none => 1
  | some l =>
    let t0 := usizeOfI32 l
    let overlap_threshold := min t0 (byteLen input_string)
    if overlap_threshold = 0 then 1
    else
      let overlap := maximal_overlaps (toLowercaseStr source_string)
        (toLowercaseStr input_string)
      let filtered_overlap := overlap.filter (fun o => overlap_threshold ≤ byteLen o)
      if filtered_overlap = [] ∨ input_string = [] then 0
      else (filtered_overlap.map (fun o => (byteLen o : ℚ))).sum /
        (byteLen input_string : ℚ)

/-- The claim's formula for the overlap raw score (C4, from the spec's words):
sum of the retained overlap lengths over the input length, and 0 whenever the
input title is empty or no overlap passes the length filter. -/
def overlapScoreClaimed (opts : ConfigOptions) (source_string input_string : Str) : ℚ :=
  match opts.overlap_adjustment with
  | none => 1
  | some l =>
    let t := min (usizeOfI32 l) (byteLen input_string)
    let retained := (maximal_overlaps (toLowercaseStr source_string)
      (toLowercaseStr input_string)).filter (fun o => t ≤ byteLen o)
    if input_string = [] ∨ retained = [] then 0
    else (retained.map (fun o => (byteLen o : ℚ))).sum / (byteLen input_string : ℚ)

/-- The amended formula for the overlap raw score: as the claim, except that a
zero clamped threshold (empty input title, or a configured threshold of 0 or
a negative value wrapping is impossible as it wraps huge) short-circuits to
1.0, leaving the similarity unchanged. -/
def overlapScoreAmended (opts : ConfigOptions) (source_string input_string : Str) : ℚ :=
  match opts.overlap_adjustment with
  | none => 1
  | some l =>
    let t := min (usizeOfI32 l) (byteLen input_string)
    if t = 0 then 1
    else
      let retained := (maximal_overlaps (toLowercaseStr source_string)
        (toLowercaseStr input_string)).filter (fun o => t ≤ byteLen o)
      if retained = [] then 0
      else (retained.map (fun o => (byteLen o : ℚ))).sum / (byteLen input_string : ℚ)

/-- C4 counterexample: with overlap threshold 10 and an empty input title the
claim demands score 0, but the clamped threshold is 0 and the code returns
1.0. -/
theorem overlap_score_counterexample :
    overlap_score ⟨false, none, DEFAULT_YEAR_TOLERANCE_PENALTY, 1, some 10⟩
        (("a").data) [] = 1 ∧
      overlapScoreClaimed ⟨false, none, DEFAULT_YEAR_TOLERANCE_PENALTY, 1, some 10⟩
        (("a").data) [] = 0 ∧
      (1 : ℚ) ≠ 0 := by
  refine ⟨by decide, by decide, by norm_num⟩

/-- C4 (amended): for every configured overlap threshold L and every pair of
titles, the overlap raw score follows the claim's formula — sum of the byte
lengths of the maximal common substrings of the lowercased titles of length
at least min(L, |input|), divided by |input| bytes, and 0 when no overlap
passes the filter — except when min(L, |input|) = 0 (empty input title, or
threshold 0), where the code returns 1.0 instead of 0. -/
theorem overlap_score_amended (opts : ConfigOptions) (source_string input_string : Str) :
    overlap_score opts source_string input_string =
      overlapScoreAmended opts source_string input_string := by
  unfold overlap_score overlapScoreAmended
  cases opts.overlap_adjustment with
  | none => rfl
  | some l =>
    simp only
    by_cases ht : min (usizeOfI32 l) (byteLen input_string) = 0
    · rw [if_pos ht, if_pos ht]
    · rw [if_neg ht, if_neg ht]
      have hne : input_string ≠ [] := by
        intro hnil
        subst hnil
        simp [byteLen] at ht
      simp [hne]
